import Mathlib

/-!
Shallow embedding of the multisig wallet message-preparation module
(`src/contracts/wallet/multisig.rs`) and of the owners cache
(`src/core/owners_cache/mod.rs`).

External collaborators (ton_block / ton_abi cell machinery, the ABI encoder,
the transport and the storage layer) are modelled as abstract operations
collected in environment structures; the functions of this development are
direct transcriptions of the Rust control flow over those operations.
Stateful cache code is embedded as explicit state passing together with an
explicit event trace recording lock operations, network fetches, in-memory
insertions and storage writes.
-/

namespace Multisig

/-- Opaque BOC cell (external `ton_types::Cell`). -/
structure Cell where
val : Nat
deriving DecidableEq

/-- 32-byte ed25519 verifying key (external `ed25519_dalek::PublicKey`). -/
structure PubKey where
val : Nat
deriving DecidableEq

/-- 256-bit integer / representation hash (external `ton_types::UInt256`). -/
structure UInt256 where
val : Nat
deriving DecidableEq

/-- Opaque cell slice (external `ton_types::SliceData`). -/
structure SliceData where
val : Nat
deriving DecidableEq

/-- Opaque cell builder (external `ton_types::BuilderData`). -/
structure BuilderData where
val : Nat
deriving DecidableEq

/-- 64-byte raw ed25519 signature. -/
structure Sig where
val : Nat
deriving DecidableEq

/-- The closed set of multisig contract flavors (`define_string_enum!` in the source). -/
inductive MultisigType
| SafeMultisigWallet
| SafeMultisigWallet24h
| SetcodeMultisigWallet
| SurfWallet
deriving DecidableEq

/-- `ton_block::StateInit`, restricted to the code and data fields the module touches. -/
structure StateInit where
code : Option Cell
data : Option Cell
deriving DecidableEq

/-- `ton_block::MsgAddressInt`: either a standard address or a variable-length one. -/
inductive MsgAddressInt
| addrStd (anycast : Option Nat) (workchain_id : Int) (address : UInt256)
| addrVar (v : Nat)
deriving DecidableEq

/-- `DEFAULT_WORKCHAIN` constant imported from the parent module. -/
def DEFAULT_WORKCHAIN : Int := 0

/-- `ton_block::Message` with an external-inbound header: destination, optional
`StateInit` attached via `set_state_init`, optional body attached via `set_body`. -/
structure Message where
dst : MsgAddressInt
init : Option StateInit
body : Option SliceData
deriving DecidableEq

/-- Which ABI schema from the contract registry a call is encoded against.
The registry holds several schemas; this module only ever requests
`contracts::abi::safe_multisig_wallet()`. -/
inductive AbiRef
| safeMultisigWallet
| otherAbi (name : String)
deriving DecidableEq

/-- ABI header values stamped on an unsigned call. -/
inductive HeaderValue
| time (t : Nat)
| expire (e : Nat)
| pubkey (k : Option PubKey)
deriving DecidableEq

/-- ABI argument tokens pushed by `MessageBuilder::arg`. -/
inductive AbiToken
| uint256arr (vs : List UInt256)
| uint8 (v : Nat)
| address (a : MsgAddressInt)
| uint128 (v : Nat)
| boolean (b : Bool)
| cell (c : Cell)
deriving DecidableEq

/-- Abstract external collaborators of `multisig.rs`: contract code registry,
cell/state-init machinery, the ABI encoder and the wall clock.  Operations the
source unwraps with `trust_me()` are total; operations it propagates with `?`
are `Except`-valued. -/
structure Env where
codeTemplate : MultisigType → Cell
constructStateInit : Cell → StateInit
defaultCell : Cell
insertPubkey : Cell → PubKey → Cell
stateInitHash : StateInit → UInt256
pubkeyUint : PubKey → UInt256
defaultSlice : SliceData
serializeSlice : SliceData → Except Nat Cell
createUnsignedCall : AbiRef → String → List (String × HeaderValue) → List AbiToken → Bool → Bool → Except Nat (BuilderData × List Nat)
fillSign : Nat → Option Sig → Option PubKey → BuilderData → Except Nat BuilderData
builderToSlice : BuilderData → SliceData
nowMillis : Nat

/-- `prepare_state_init`: load the variant's code template, parse it into a
`StateInit`, insert the public key into the (defaulted) data cell. -/
def prepare_state_init (env : Env) (public_key : PubKey) (multisig_type : MultisigType) : StateInit :=
let code := env.codeTemplate multisig_type
let state_init := env.constructStateInit code
let new_data := env.insertPubkey (state_init.data.getD env.defaultCell) public_key
⟨state_init.code, some new_data⟩

/-- The three ABI headers stamped by both preparation functions:
`time` (wall clock ms), `expire` (caller deadline), `pubkey`. -/
def makeHeader (env : Env) (expire_at : Nat) (public_key : PubKey) : List (String × HeaderValue) :=
[("time", HeaderValue.time env.nowMillis),
 ("expire", HeaderValue.expire expire_at),
 ("pubkey", HeaderValue.pubkey (some public_key))]

/-- The concrete unsigned-message capability returned by both preparation
functions (`UnsignedMultisigMessage` in the source). -/
structure UnsignedMultisigMessage where
hash : List Nat
payload : BuilderData
expire_at : Nat
message : Message
deriving DecidableEq

/-- `SignedMessage` from the keystore module: encoded message plus expiration. -/
structure SignedMessage where
message : Message
expire_at : Nat
deriving DecidableEq

/-- `prepare_deploy`: derive the `StateInit` and its hash, address the message to
the derived address in the default workchain, attach the `StateInit`, and encode
an unsigned `constructor` call against the SafeMultisigWallet ABI. -/
def prepare_deploy (env : Env) (public_key : PubKey) (multisig_type : MultisigType)
(expire_at : Nat) : Except Nat UnsignedMultisigMessage :=
let state_init := prepare_state_init env public_key multisig_type
let hash := env.stateInitHash state_init
let dst : MsgAddressInt := .addrStd none DEFAULT_WORKCHAIN hash
let message : Message := ⟨dst, some state_init, none⟩
let input : List AbiToken := [.uint256arr [env.pubkeyUint public_key], .uint8 1]
match env.createUnsignedCall .safeMultisigWallet "constructor" (makeHeader env expire_at public_key) input false true with
| .error e => .error e
| .ok (payload, h) => .ok ⟨h, payload, expire_at, message⟩

/-- `ton_block::AccountState`. -/
inductive AccountState
| AccountUninit
| AccountActive (init : StateInit)
| AccountFrozen (state_hash : UInt256)
deriving DecidableEq

/-- `ton_block::AccountStorage`, restricted to the `state` field the module reads. -/
structure AccountStorage where
state : AccountState
deriving DecidableEq

/-- `ton_block::AccountStuff`, restricted to the fields the module reads. -/
structure AccountStuff where
addr : MsgAddressInt
storage : AccountStorage
deriving DecidableEq

/-- `TransferAction` from the parent module. -/
inductive TransferAction
| DeployFirst
| Sign (msg : UnsignedMultisigMessage)
deriving DecidableEq

/-- Failure modes of `prepare_transfer`: the module's own `MultisigError` plus
propagated collaborator errors. -/
inductive TransferError
| AccountIsFrozen
| external (e : Nat)
deriving DecidableEq

/-- `prepare_transfer`: branch on the account status, then encode an unsigned
`sendTransaction` call against the SafeMultisigWallet ABI, addressed to the
account's own address with no `StateInit` attached. -/
def prepare_transfer (env : Env) (public_key : PubKey) (current_state : AccountStuff)
(destination : MsgAddressInt) (amount : Nat) (bounce : Bool)
(body : Option SliceData) (expire_at : Nat) : Except TransferError TransferAction :=
match current_state.storage.state with
| .AccountFrozen _ => .error .AccountIsFrozen
| .AccountUninit => .ok .DeployFirst
| .AccountActive _ =>
  let message : Message := ⟨current_state.addr, none, none⟩
  match env.serializeSlice (body.getD env.defaultSlice) with
  | .error e => .error (.external e)
  | .ok bodyCell =>
    let input : List AbiToken :=
      [.address destination, .uint128 amount, .boolean bounce, .uint8 3, .cell bodyCell]
    match env.createUnsignedCall .safeMultisigWallet "sendTransaction" (makeHeader env expire_at public_key) input false true with
    | .error e => .error (.external e)
    | .ok (payload, h) => .ok (.Sign ⟨h, payload, expire_at, message⟩)

/-- `UnsignedMultisigMessage::sign`: inject the signature into the held-open
placeholder of the payload and attach it as the body of a copy of the message. -/
def UnsignedMultisigMessage.sign (self : UnsignedMultisigMessage) (env : Env)
(signature : Sig) : Except Nat SignedMessage :=
let payload := self.payload
match env.fillSign 2 (some signature) none payload with
| .error e => .error e
| .ok payload =>
  let message : Message := ⟨self.message.dst, self.message.init, some (env.builderToSlice payload)⟩
  .ok ⟨message, self.expire_at⟩

/-- Method-call view of `sign`, which takes `&self`: the result paired with the
state of the receiver after the call. -/
def UnsignedMultisigMessage.signCall (self : UnsignedMultisigMessage) (env : Env)
(signature : Sig) : Except Nat SignedMessage × UnsignedMultisigMessage :=
(self.sign env signature, self)

/-- `compute_contract_address`: same `StateInit` derivation and hash as
`prepare_deploy`, paired with the caller-supplied workchain id. -/
def compute_contract_address (env : Env) (public_key : PubKey) (multisig_type : MultisigType)
(workchain_id : Int) : MsgAddressInt :=
let state_init := prepare_state_init env public_key multisig_type
let hash := env.stateInitHash state_init
.addrStd none workchain_id hash

/-- `Env` with its ABI encoder replaced, all other collaborators unchanged. -/
def envWithCall (env : Env)
(f : AbiRef → String → List (String × HeaderValue) → List AbiToken → Bool → Bool → Except Nat (BuilderData × List Nat)) : Env :=
⟨env.codeTemplate, env.constructStateInit, env.defaultCell, env.insertPubkey,
 env.stateInitHash, env.pubkeyUint, env.defaultSlice, env.serializeSlice,
 f, env.fillSign, env.builderToSlice, env.nowMillis⟩

/-- A concrete instantiation of the collaborators, used to evaluate the
theorems on explicit inputs. -/
def envC : Env :=
⟨fun _ => ⟨0⟩,
 fun c => ⟨some c, some ⟨1⟩⟩,
 ⟨2⟩,
 fun c k => ⟨c.val + k.val⟩,
 fun si => ⟨(si.data.getD ⟨0⟩).val⟩,
 fun k => ⟨k.val⟩,
 ⟨0⟩,
 fun s => .ok ⟨s.val⟩,
 fun _ _ _ _ _ _ => .ok (⟨7⟩, [1, 2]),
 fun _ _ _ b => .ok b,
 fun b => ⟨b.val⟩,
 1000⟩

/-- The unsigned message produced by `prepare_deploy` under `envC` for the key
`⟨3⟩`, the `SafeMultisigWallet` variant and deadline `42`. -/
def msgC : UnsignedMultisigMessage :=
⟨[1, 2], ⟨7⟩, 42, ⟨.addrStd none 0 ⟨4⟩, some ⟨some ⟨0⟩, some ⟨4⟩⟩, none⟩⟩

/-- A concrete ABI encoder that agrees with `envC`'s on the SafeMultisigWallet
schema and differs from it everywhere else. -/
def fAltC : AbiRef → String → List (String × HeaderValue) → List AbiToken → Bool → Bool → Except Nat (BuilderData × List Nat) :=
fun a _ _ _ _ _ =>
match a with
| .safeMultisigWallet => .ok (⟨7⟩, [1, 2])
| .otherAbi _ => .error 9

/-- A concrete active account for evaluating `prepare_transfer`. -/
def stActiveC : AccountStuff := ⟨.addrStd none 0 ⟨9⟩, ⟨.AccountActive ⟨none, none⟩⟩⟩

/-- A concrete uninitialized account. -/
def stUninitC : AccountStuff := ⟨.addrStd none 0 ⟨9⟩, ⟨.AccountUninit⟩⟩

/-- A concrete frozen account. -/
def stFrozenC : AccountStuff := ⟨.addrStd none 0 ⟨9⟩, ⟨.AccountFrozen ⟨8⟩⟩⟩

end Multisig

namespace OwnersCacheModel

variable {α : Type} [DecidableEq α]

/-- Association-list view of a `HashMap`: lookup returns the binding of the key. -/
def lookupA {β : Type} : List (α × β) → α → Option β
| [], _ => none
| (k, v) :: rest, a => if k = a then some v else lookupA rest a

/-- Association-list view of `HashMap::insert`: replace the binding if the key
is present, append it otherwise. -/
def insertA {β : Type} : List (α × β) → α → β → List (α × β)
| [], k, v => [(k, v)]
| (k', v') :: rest, k, v => if k' = k then (k, v) :: rest else (k', v') :: insertA rest k v

/-- The keys of an association list. -/
def keysOf {β : Type} (m : List (α × β)) : List α := m.map Prod.fst

/-- The distinct elements of a list (`HashSet` collection of the input). -/
def dedup : List α → List α
| [] => []
| a :: rest => if a ∈ rest then dedup rest else a :: dedup rest

/-- Opaque existing-contract snapshot (external `ExistingContract`). -/
structure ExistingContract where
val : Nat
deriving DecidableEq

/-- Detected token-wallet schema version (external `TokenWalletVersion`). -/
abbrev TokenWalletVersion := Nat

/-- `transport::models::ContractState`. -/
inductive ContractState
| Exists (c : ExistingContract)
| NotExists
deriving DecidableEq

/-- Token-wallet details, restricted to the `owner_address` field the module reads. -/
structure TokenWalletDetails (α : Type) where
owner_address : α
deriving DecidableEq

/-- Abstract external collaborators of the owners cache: the transport, the
semaphore outcome, the contract-state inspectors and the address codec. -/
structure TransportEnv (α : Type) where
getContractState : α → Except Nat ContractState
permitOk : α → Bool
getVersion : ExistingContract → Except Nat TokenWalletVersion
getDetails : ExistingContract → TokenWalletVersion → Except Nat (TokenWalletDetails α)
guessVersion : ExistingContract → Except Nat TokenWalletVersion
getWalletAddress : ExistingContract → TokenWalletVersion → α → Except Nat α
toStr : α → String

/-- The two reader/writer locks owned by the cache. -/
inductive LockId
| owners
| tokenStates
deriving DecidableEq

/-- Observable events of a cache operation, in program order. -/
inductive Ev (α : Type)
| readLock (l : LockId)
| readUnlock (l : LockId)
| writeLock (l : LockId)
| writeUnlock (l : LockId)
| permitAcquire
| netFetch (a : α)
| insertOwner (k v : α)
| insertTokenState (a : α)
| storageSet (key : String) (data : List (String × String))
deriving DecidableEq

/-- The storage key of the persisted owner map. -/
def STORAGE_OWNERS_CACHE : String := "owners_cache"

/-- `OwnersCache::save`'s encoding step: the owner map as an ordered list of
2-element tuples of address strings. -/
def encodeOwners (toStr : α → String) (owners : List (α × α)) : List (String × String) :=
owners.map (fun p => (toStr p.1, toStr p.2))

/-- The storage-write event emitted by `OwnersCache::save`. -/
def saveEv (env : TransportEnv α) (owners : List (α × α)) : Ev α :=
.storageSet STORAGE_OWNERS_CACHE (encodeOwners env.toStr owners)

/-- The in-memory state of an `OwnersCache`: the owner map and the
root-token-contract state map. -/
structure OwnersCache (α : Type) where
owners : List (α × α)
tokenStates : List (α × (ExistingContract × TokenWalletVersion))
deriving DecidableEq

/-- `OwnersCache::add_entry`: lock the owner map, insert, save, unlock. -/
def addEntry (env : TransportEnv α) (self : OwnersCache α) (token_wallet owner_wallet : α) :
OwnersCache α × List (Ev α) :=
let owners := insertA self.owners token_wallet owner_wallet
(⟨owners, self.tokenStates⟩,
 [.writeLock .owners, .insertOwner token_wallet owner_wallet, saveEv env owners, .writeUnlock .owners])

/-- `OwnersCache::add_owners_list`: lock the owner map, extend, save, unlock. -/
def addOwnersList (env : TransportEnv α) (self : OwnersCache α) (new_owners : List (α × α)) :
OwnersCache α × List (Ev α) :=
let owners := new_owners.foldl (fun m p => insertA m p.1 p.2) self.owners
(⟨owners, self.tokenStates⟩,
 [Ev.writeLock .owners] ++ new_owners.map (fun p => Ev.insertOwner p.1 p.2)
   ++ [saveEv env owners, Ev.writeUnlock .owners])

/-- One task of `resolve_owners`: read-lock lookup; on a miss, acquire a permit,
fetch the contract state, detect the version, extract the owner and record it
under the write lock; on any failure yield nothing. -/
def resolveOne (env : TransportEnv α) (owners : List (α × α)) (token_wallet : α) :
List (α × α) × List (Ev α) × Option (α × α) :=
match lookupA owners token_wallet with
| some owner => (owners, [.readLock .owners, .readUnlock .owners], some (token_wallet, owner))
| none =>
  if env.permitOk token_wallet then
    match env.getContractState token_wallet with
    | .error _ =>
      (owners, [.readLock .owners, .readUnlock .owners, .permitAcquire, .netFetch token_wallet],
       none)
    | .ok .NotExists =>
      (owners, [.readLock .owners, .readUnlock .owners, .permitAcquire, .netFetch token_wallet],
       none)
    | .ok (.Exists contract_state) =>
      match env.getVersion contract_state with
      | .error _ =>
        (owners, [.readLock .owners, .readUnlock .owners, .permitAcquire, .netFetch token_wallet],
         none)
      | .ok version =>
        match env.getDetails contract_state version with
        | .error _ =>
          (owners,
           [.readLock .owners, .readUnlock .owners, .permitAcquire, .netFetch token_wallet],
           none)
        | .ok details =>
          (insertA owners token_wallet details.owner_address,
           [.readLock .owners, .readUnlock .owners, .permitAcquire, .netFetch token_wallet,
            .writeLock .owners, .insertOwner token_wallet details.owner_address,
            .writeUnlock .owners],
           some (token_wallet, details.owner_address))
  else (owners, [.readLock .owners, .readUnlock .owners], none)

/-- The fan-out of `resolve_owners` over the distinct token wallets, collecting
only the successes (one sequential interleaving of the concurrent tasks). -/
def resolveLoop (env : TransportEnv α) (owners : List (α × α)) :
List α → List (α × α) × List (Ev α) × List (α × α)
| [] => (owners, [], [])
| w :: rest =>
  let step := resolveOne env owners w
  let next := resolveLoop env step.1 rest
  (next.1, step.2.1 ++ next.2.1,
   (match step.2.2 with | some p => [p] | none => []) ++ next.2.2)

/-- `OwnersCache::resolve_owners`: deduplicate the input, resolve each distinct
token wallet, return the updated cache, the event trace and the result map. -/
def resolveOwners (env : TransportEnv α) (self : OwnersCache α) (token_wallets : List α) :
OwnersCache α × List (Ev α) × List (α × α) :=
let r := resolveLoop env self.owners (dedup token_wallets)
(⟨r.1, self.tokenStates⟩, r.2.1, r.2.2)

/-- `OwnersCache::get_owner`: read-lock lookup, no network access. -/
def getOwner (self : OwnersCache α) (token_wallet : α) : Option α :=
lookupA self.owners token_wallet

/-- `RecipientWallet`. -/
inductive RecipientWallet (α : Type)
| NotExists
| Exists (a : α)
deriving DecidableEq

/-- `OwnersCacheError` plus propagated collaborator errors. -/
inductive OwnersCacheError
| InvalidRootTokenContract
| external (e : Nat)
deriving DecidableEq

/-- Free function `check_token_wallet`: derive the owner's token-wallet address
from the root contract state, record the (token wallet, owner) pair under the
owner-map write lock, then check on-chain existence. -/
def checkTokenWallet (env : TransportEnv α) (owners : List (α × α))
(sv : ExistingContract × TokenWalletVersion) (owner_wallet : α) :
List (α × α) × List (Ev α) × Except OwnersCacheError (RecipientWallet α) :=
match env.getWalletAddress sv.1 sv.2 owner_wallet with
| .error e => (owners, [], .error (.external e))
| .ok token_wallet =>
  let owners1 := insertA owners token_wallet owner_wallet
  let tr : List (Ev α) :=
    [.writeLock .owners, .insertOwner token_wallet owner_wallet, .writeUnlock .owners]
  match env.getContractState token_wallet with
  | .error e => (owners1, tr ++ [.netFetch token_wallet], .error (.external e))
  | .ok .NotExists => (owners1, tr ++ [.netFetch token_wallet], .ok .NotExists)
  | .ok (.Exists _) => (owners1, tr ++ [.netFetch token_wallet], .ok (.Exists token_wallet))

/-- `OwnersCache::check_recipient_wallet`: under the token-contract-states write
lock, look up or fetch-and-record the root contract's state and version, then
delegate to `check_token_wallet`. -/
def checkRecipientWallet (env : TransportEnv α) (self : OwnersCache α)
(root_token_contract owner_wallet : α) :
OwnersCache α × List (Ev α) × Except OwnersCacheError (RecipientWallet α) :=
match lookupA self.tokenStates root_token_contract with
| some sv =>
  let r := checkTokenWallet env self.owners sv owner_wallet
  (⟨r.1, self.tokenStates⟩,
   [Ev.writeLock .tokenStates] ++ r.2.1 ++ [Ev.writeUnlock .tokenStates], r.2.2)
| none =>
  match env.getContractState root_token_contract with
  | .error e =>
    (self, [.writeLock .tokenStates, .netFetch root_token_contract, .writeUnlock .tokenStates],
     .error (.external e))
  | .ok .NotExists =>
    (self, [.writeLock .tokenStates, .netFetch root_token_contract, .writeUnlock .tokenStates],
     .error .InvalidRootTokenContract)
  | .ok (.Exists state) =>
    match env.guessVersion state with
    | .error e =>
      (self, [.writeLock .tokenStates, .netFetch root_token_contract, .writeUnlock .tokenStates],
       .error (.external e))
    | .ok version =>
      let tokenStates1 := insertA self.tokenStates root_token_contract (state, version)
      let r := checkTokenWallet env self.owners (state, version) owner_wallet
      (⟨r.1, tokenStates1⟩,
       [Ev.writeLock .tokenStates, Ev.netFetch root_token_contract,
        Ev.insertTokenState root_token_contract] ++ r.2.1 ++ [Ev.writeUnlock .tokenStates],
       r.2.2)

/-- Failure modes of `OwnersCache::load`. -/
inductive LoadError
| storageErr (e : Nat)
| jsonErr (e : Nat)
| addrErr (e : Nat)
deriving DecidableEq

/-- The address-parsing pass of `load`: `MsgAddressInt::from_str` on both
components of every persisted tuple, failing on the first parse error. -/
def parsePairs (fromStr : String → Except Nat α) :
List (String × String) → Except Nat (List (α × α))
| [] => .ok []
| (s, t) :: rest =>
  match fromStr s with
  | .error e => .error e
  | .ok token_wallet =>
    match fromStr t with
    | .error e => .error e
    | .ok owner_wallet =>
      match parsePairs fromStr rest with
      | .error e => .error e
      | .ok rest1 => .ok ((token_wallet, owner_wallet) :: rest1)

/-- The `collect::<HashMap<_, _>>` step of `load`: fold the parsed pairs into a map. -/
def collectMap (pairs : List (α × α)) : List (α × α) :=
pairs.foldl (fun m p => insertA m p.1 p.2) []

/-- The decode direction of the persistence round trip: parse the address
strings and collect them into the owner map. -/
def decodeOwners (fromStr : String → Except Nat α) (items : List (String × String)) :
Except Nat (List (α × α)) :=
match parsePairs fromStr items with
| .error e => .error e
| .ok pairs => .ok (collectMap pairs)

/-- `OwnersCache::load`: a missing record is an empty cache; a present record is
JSON-decoded into string tuples and address-parsed, either step failing hard. -/
def load (getResult : Except Nat (Option String))
(parseJson : String → Except Nat (List (String × String)))
(fromStr : String → Except Nat α) : Except LoadError (OwnersCache α) :=
match getResult with
| .error e => .error (.storageErr e)
| .ok none => .ok ⟨[], []⟩
| .ok (some data) =>
  match parseJson data with
  | .error e => .error (.jsonErr e)
  | .ok items =>
    match parsePairs fromStr items with
    | .error e => .error (.addrErr e)
    | .ok pairs => .ok ⟨collectMap pairs, []⟩

/-- `OwnersCache::load_unchecked`: `load`, degrading to an empty cache on any failure. -/
def loadUnchecked (getResult : Except Nat (Option String))
(parseJson : String → Except Nat (List (String × String)))
(fromStr : String → Except Nat α) : OwnersCache α :=
match load getResult parseJson fromStr with
| .ok cache => cache
| .error _ => ⟨[], []⟩

/-- Predicate on events: `true` unless the event is a storage write. -/
def notStorageSet : Ev α → Bool
| .storageSet _ _ => false
| _ => true

/-- Predicate on events: is the event a network fetch. -/
def isNetFetch : Ev α → Bool
| .netFetch _ => true
| _ => false

/-- Whether a network fetch occurs somewhere in the trace while the write lock
`l` is held (`held` is the lock state at the start of the trace). -/
def netWhileWriteHeld (l : LockId) : List (Ev α) → Bool → Bool
| [], _ => false
| e :: rest, held =>
  match e with
  | .writeLock l' => netWhileWriteHeld l rest (if l' = l then true else held)
  | .writeUnlock l' => netWhileWriteHeld l rest (if l' = l then false else held)
  | .netFetch _ => held || netWhileWriteHeld l rest held
  | _ => netWhileWriteHeld l rest held

/-- The state of write lock `l` after the trace has run. -/
def heldAfter (l : LockId) : List (Ev α) → Bool → Bool
| [], held => held
| e :: rest, held =>
  match e with
  | .writeLock l' => heldAfter l rest (if l' = l then true else held)
  | .writeUnlock l' => heldAfter l rest (if l' = l then false else held)
  | _ => heldAfter l rest held

/-- The outcome of the network cascade of one `resolve_owners` task for a
wallet not served from the cache: `some owner` exactly when the permit is
granted and the fetch, version detection and detail extraction all succeed. -/
def stepResolve (env : TransportEnv α) (w : α) : Option α :=
if env.permitOk w then
  match env.getContractState w with
  | .ok (.Exists c) =>
    match env.getVersion c with
    | .ok v =>
      match env.getDetails c v with
      | .ok d => some d.owner_address
      | .error _ => none
    | .error _ => none
  | .ok .NotExists => none
  | .error _ => none
else none

/-- A concrete transport where every resolution step succeeds: every wallet's
contract exists, version detection yields `0`, the extracted owner is `1`, and
derived recipient token-wallet addresses are `5`. -/
def envN : TransportEnv Nat :=
⟨fun _ => .ok (.Exists ⟨0⟩),
 fun _ => true,
 fun _ => .ok 0,
 fun _ _ => .ok ⟨1⟩,
 fun _ => .ok 0,
 fun _ _ _ => .ok 5,
 fun _ => "x"⟩

/-- A concrete transport where the contract-state fetch fails for wallet `3`
and every other resolution step succeeds. -/
def envN2 : TransportEnv Nat :=
⟨fun w => if w = 3 then .error 1 else .ok (.Exists ⟨0⟩),
 fun _ => true,
 fun _ => .ok 0,
 fun _ _ => .ok ⟨1⟩,
 fun _ => .ok 0,
 fun _ _ _ => .ok 5,
 fun _ => "x"⟩

/-- A concrete address-to-string codec over `Bool` addresses. -/
def toStrB : Bool → String := fun b => if b then "t" else "f"

/-- The inverse codec: parse the strings produced by `toStrB`, failing on
anything else. -/
def fromStrB : String → Except Nat Bool :=
fun s => if s = "t" then .ok true else if s = "f" then .ok false else .error 0

/-- A concrete JSON layer: the string `"bad"` is malformed, everything else
decodes to a tuple list whose second address string is unparseable by `fromStrB`. -/
def pjC : String → Except Nat (List (String × String)) :=
fun s => if s = "bad" then .error 3 else .ok [("t", "q")]

end OwnersCacheModel

namespace Multisig

/-- C2: for every public key and multisig variant, the destination address
embedded in the message built by `prepare_deploy` is the address returned by
`compute_contract_address` at `DEFAULT_WORKCHAIN`, and the embedded `StateInit`
is the one both paths derive via `prepare_state_init`. -/
theorem deploy_dst_eq_compute_contract_address (env : Env) (pk : PubKey)
(ty : MultisigType) (expire_at : Nat) (msg : UnsignedMultisigMessage)
(h : prepare_deploy env pk ty expire_at = .ok msg) :
msg.message.dst = compute_contract_address env pk ty DEFAULT_WORKCHAIN
∧ msg.message.init = some (prepare_state_init env pk ty) := by
simp only [prepare_deploy] at h
split at h
· cases h
· cases h
  exact ⟨rfl, rfl⟩

/-- Witness for C2 at a concrete environment, key and variant. -/
theorem deploy_dst_eq_compute_contract_address_witness :
msgC.message.dst = compute_contract_address envC ⟨3⟩ .SafeMultisigWallet DEFAULT_WORKCHAIN
∧ msgC.message.init = some (prepare_state_init envC ⟨3⟩ .SafeMultisigWallet) :=
deploy_dst_eq_compute_contract_address envC ⟨3⟩ .SafeMultisigWallet 42 msgC rfl

/-- C8: for every environment, public key and variant, the addresses computed
for two workchain ids share the same 256-bit account id (the `StateInit` hash,
which does not depend on the workchain) and the same absent anycast field, and
differ only in the workchain field. -/
theorem compute_contract_address_workchain_only (env : Env) (pk : PubKey)
(ty : MultisigType) (w1 w2 : Int) :
∃ h : UInt256,
compute_contract_address env pk ty w1 = .addrStd none w1 h
∧ compute_contract_address env pk ty w2 = .addrStd none w2 h :=
⟨env.stateInitHash (prepare_state_init env pk ty), rfl, rfl⟩

/-- C4: `sign` takes `&self`: the receiver is unchanged by the call, and
finalizing the same unsigned message twice with the same signature yields the
same `SignedMessage` (identical encoded message and expiration), whose
expiration is the one recorded in the unsigned message. -/
theorem sign_pure_and_repeatable (env : Env) (self : UnsignedMultisigMessage)
(signature : Sig) :
(self.signCall env signature).2 = self
∧ ∀ s1 s2, self.sign env signature = .ok s1 →
((self.signCall env signature).2).sign env signature = .ok s2 →
s1 = s2 ∧ s1.expire_at = self.expire_at := by
refine ⟨rfl, fun s1 s2 h1 h2 => ?_⟩
have h12 : s1 = s2 := by
  have := h1.symm.trans h2
  exact Except.ok.inj this
refine ⟨h12, ?_⟩
simp only [UnsignedMultisigMessage.sign] at h1
split at h1
· cases h1
· cases h1
  rfl

/-- Witness for C4 at a concrete environment, message and signature. -/
theorem sign_pure_and_repeatable_witness :
(msgC.signCall envC ⟨5⟩).2 = msgC
∧ (⟨⟨.addrStd none 0 ⟨4⟩, some ⟨some ⟨0⟩, some ⟨4⟩⟩, some ⟨7⟩⟩, 42⟩ : SignedMessage)
  = ⟨⟨.addrStd none 0 ⟨4⟩, some ⟨some ⟨0⟩, some ⟨4⟩⟩, some ⟨7⟩⟩, 42⟩
∧ (⟨⟨.addrStd none 0 ⟨4⟩, some ⟨some ⟨0⟩, some ⟨4⟩⟩, some ⟨7⟩⟩, 42⟩ : SignedMessage).expire_at
  = msgC.expire_at := by
have h := sign_pure_and_repeatable envC msgC ⟨5⟩
have h2 := h.2 ⟨⟨.addrStd none 0 ⟨4⟩, some ⟨some ⟨0⟩, some ⟨4⟩⟩, some ⟨7⟩⟩, 42⟩
  ⟨⟨.addrStd none 0 ⟨4⟩, some ⟨some ⟨0⟩, some ⟨4⟩⟩, some ⟨7⟩⟩, 42⟩ rfl rfl
exact ⟨h.1, h2.1, h2.2⟩

/-- C3: `prepare_transfer` branches on the account status of `current_state`:
a frozen account always fails with `AccountIsFrozen`; an uninitialized account
always returns `DeployFirst` (for every environment, hence without consulting
the ABI encoder); for an active account the result is never `DeployFirst` and
never `AccountIsFrozen`, and whenever the body serialization and the unsigned
call encoding succeed it is `Sign` of the built unsigned message. -/
theorem prepare_transfer_status_determined (env : Env) (pk : PubKey)
(cs : AccountStuff) (destination : MsgAddressInt) (amount : Nat) (bounce : Bool)
(body : Option SliceData) (expire_at : Nat) :
(∀ fh, cs.storage.state = .AccountFrozen fh →
  prepare_transfer env pk cs destination amount bounce body expire_at
    = .error .AccountIsFrozen)
∧ (cs.storage.state = .AccountUninit →
  prepare_transfer env pk cs destination amount bounce body expire_at
    = .ok .DeployFirst)
∧ (∀ si, cs.storage.state = .AccountActive si →
  prepare_transfer env pk cs destination amount bounce body expire_at
    ≠ .error .AccountIsFrozen
  ∧ prepare_transfer env pk cs destination amount bounce body expire_at
    ≠ .ok .DeployFirst
  ∧ ∀ bodyCell payload hsh,
      env.serializeSlice (body.getD env.defaultSlice) = .ok bodyCell →
      env.createUnsignedCall .safeMultisigWallet "sendTransaction"
        (makeHeader env expire_at pk)
        [.address destination, .uint128 amount, .boolean bounce, .uint8 3, .cell bodyCell]
        false true = .ok (payload, hsh) →
      prepare_transfer env pk cs destination amount bounce body expire_at
        = .ok (.Sign ⟨hsh, payload, expire_at, ⟨cs.addr, none, none⟩⟩)) := by
refine ⟨fun fh hst => ?_, fun hst => ?_, fun si hst => ?_⟩
· unfold prepare_transfer
  rw [hst]
· unfold prepare_transfer
  rw [hst]
· refine ⟨?_, ?_, ?_⟩
  · intro hc
    unfold prepare_transfer at hc
    simp only [hst] at hc
    split at hc
    · simp at hc
    · split at hc
      · simp at hc
      · simp at hc
  · intro hc
    unfold prepare_transfer at hc
    simp only [hst] at hc
    split at hc
    · simp at hc
    · split at hc
      · simp at hc
      · simp at hc
  · intro bodyCell payload hsh hser henc
    unfold prepare_transfer
    simp only [hst, hser, henc]

/-- Witness for C3: the three statuses evaluated at concrete inputs. -/
theorem prepare_transfer_status_determined_witness :
prepare_transfer envC ⟨3⟩ stFrozenC (.addrStd none 0 ⟨11⟩) 500 true none 42
  = .error .AccountIsFrozen
∧ prepare_transfer envC ⟨3⟩ stUninitC (.addrStd none 0 ⟨11⟩) 500 true none 42
  = .ok .DeployFirst
∧ prepare_transfer envC ⟨3⟩ stActiveC (.addrStd none 0 ⟨11⟩) 500 true none 42
  = .ok (.Sign ⟨[1, 2], ⟨7⟩, 42, ⟨stActiveC.addr, none, none⟩⟩) :=
⟨(prepare_transfer_status_determined envC ⟨3⟩ stFrozenC (.addrStd none 0 ⟨11⟩) 500 true none 42).1
   ⟨8⟩ rfl,
 (prepare_transfer_status_determined envC ⟨3⟩ stUninitC (.addrStd none 0 ⟨11⟩) 500 true none 42).2.1
   rfl,
 ((prepare_transfer_status_determined envC ⟨3⟩ stActiveC (.addrStd none 0 ⟨11⟩) 500 true none 42).2.2
   ⟨none, none⟩ rfl).2.2 ⟨0⟩ ⟨7⟩ [1, 2] rfl rfl⟩

/-- C10: the encoded unsigned constructor call of `prepare_deploy` (payload and
signing hash) is the same for every multisig variant; both `prepare_deploy` and
`prepare_transfer` consult the ABI encoder only on the SafeMultisigWallet
schema (replacing the encoder on every other schema changes nothing); and the
variant enters `prepare_state_init` only through its code template. -/
theorem abi_schema_single_and_variant_only_code (env : Env) (pk : PubKey)
(ty ty1 ty2 : MultisigType) (expire_at : Nat)
(f : AbiRef → String → List (String × HeaderValue) → List AbiToken → Bool → Bool → Except Nat (BuilderData × List Nat))
(cs : AccountStuff) (destination : MsgAddressInt) (amount : Nat) (bounce : Bool)
(body : Option SliceData) :
(Except.map (fun m => (m.payload, m.hash)) (prepare_deploy env pk ty1 expire_at)
  = Except.map (fun m => (m.payload, m.hash)) (prepare_deploy env pk ty2 expire_at))
∧ ((∀ s hdr inp b1 b2, f AbiRef.safeMultisigWallet s hdr inp b1 b2
      = env.createUnsignedCall AbiRef.safeMultisigWallet s hdr inp b1 b2) →
   prepare_deploy (envWithCall env f) pk ty expire_at = prepare_deploy env pk ty expire_at
   ∧ prepare_transfer (envWithCall env f) pk cs destination amount bounce body expire_at
     = prepare_transfer env pk cs destination amount bounce body expire_at)
∧ (env.codeTemplate ty1 = env.codeTemplate ty2 →
   prepare_state_init env pk ty1 = prepare_state_init env pk ty2) := by
refine ⟨?_, fun hf => ⟨?_, ?_⟩, fun hc => ?_⟩
· simp only [prepare_deploy]
  cases henc : env.createUnsignedCall .safeMultisigWallet "constructor"
      (makeHeader env expire_at pk) [.uint256arr [env.pubkeyUint pk], .uint8 1] false true with
  | error e => rfl
  | ok p => obtain ⟨pl, hs⟩ := p; rfl
· simp only [prepare_deploy, prepare_state_init, makeHeader, envWithCall]
  rw [hf]
· simp only [prepare_transfer, makeHeader, envWithCall]
  cases cs.storage.state with
  | AccountUninit => rfl
  | AccountFrozen fh => rfl
  | AccountActive si =>
    dsimp only
    cases hser : env.serializeSlice (body.getD env.defaultSlice) with
    | error e => rfl
    | ok bodyCell =>
      dsimp only
      rw [hf]
· unfold prepare_state_init
  rw [hc]

/-- Witness for C10: the variant-independence of the encoded call, the encoder
locality and the code-template dependence, evaluated at concrete inputs. -/
theorem abi_schema_single_and_variant_only_code_witness :
(Except.map (fun m => (m.payload, m.hash)) (prepare_deploy envC ⟨3⟩ .SafeMultisigWallet24h 42)
  = Except.map (fun m => (m.payload, m.hash)) (prepare_deploy envC ⟨3⟩ .SurfWallet 42))
∧ (prepare_deploy (envWithCall envC fAltC) ⟨3⟩ .SetcodeMultisigWallet 42
     = prepare_deploy envC ⟨3⟩ .SetcodeMultisigWallet 42
   ∧ prepare_transfer (envWithCall envC fAltC) ⟨3⟩ stActiveC
       (.addrStd none 0 ⟨11⟩) 500 true none 42
     = prepare_transfer envC ⟨3⟩ stActiveC (.addrStd none 0 ⟨11⟩) 500 true none 42)
∧ prepare_state_init envC ⟨3⟩ .SafeMultisigWallet24h = prepare_state_init envC ⟨3⟩ .SurfWallet := by
have h := abi_schema_single_and_variant_only_code envC ⟨3⟩ .SetcodeMultisigWallet
  .SafeMultisigWallet24h .SurfWallet 42 fAltC stActiveC
  (.addrStd none 0 ⟨11⟩) 500 true none
exact ⟨h.1, h.2.1 (by intro s hdr inp b1 b2; rfl), h.2.2 rfl⟩

end Multisig

namespace OwnersCacheModel

variable {α : Type} [DecidableEq α]

theorem lookupA_insertA_self {β : Type} (m : List (α × β)) (k : α) (v : β) :
lookupA (insertA m k v) k = some v := by
induction m with
| nil => simp [insertA, lookupA]
| cons p rest ih =>
  obtain ⟨k', v'⟩ := p
  by_cases hk : k' = k
  · subst hk
    simp [insertA, lookupA]
  · simp [insertA, hk, lookupA, ih]

theorem lookupA_insertA_ne {β : Type} (m : List (α × β)) (k k' : α) (v : β)
(h : k' ≠ k) : lookupA (insertA m k v) k' = lookupA m k' := by
have hne : ¬ k = k' := fun hc => h hc.symm
induction m with
| nil => simp [insertA, lookupA, hne]
| cons p rest ih =>
  obtain ⟨k0, v0⟩ := p
  by_cases hk : k0 = k
  · simp [insertA, hk, lookupA, hne]
  · simp [insertA, hk, lookupA, ih]

theorem insertA_of_not_mem {β : Type} (m : List (α × β)) (k : α) (v : β)
(h : k ∉ keysOf m) : insertA m k v = m ++ [(k, v)] := by
induction m with
| nil => simp [insertA]
| cons p rest ih =>
  obtain ⟨k0, v0⟩ := p
  simp only [keysOf, List.map_cons, List.mem_cons] at h
  push_neg at h
  have hk0 : ¬ k0 = k := fun hc => h.1 hc.symm
  simp only [insertA, if_neg hk0, List.cons_append]
  rw [ih (by simpa [keysOf] using h.2)]

theorem foldl_insertA_of_nodup (l acc : List (α × α))
(h : (keysOf (acc ++ l)).Nodup) :
l.foldl (fun m p => insertA m p.1 p.2) acc = acc ++ l := by
induction l generalizing acc with
| nil => simp
| cons p rest ih =>
  obtain ⟨k, v⟩ := p
  have hmap : keysOf (acc ++ (k, v) :: rest) = keysOf acc ++ k :: keysOf rest := by
    simp [keysOf]
  rw [hmap] at h
  have hk : k ∉ keysOf acc := by
    intro hc
    rcases List.nodup_append.mp h with ⟨-, -, hdis⟩
    exact hdis hc (by simp)
  have hstep : acc ++ (k, v) :: rest = (acc ++ [(k, v)]) ++ rest := by simp
  rw [List.foldl_cons]
  show rest.foldl (fun m p => insertA m p.1 p.2) (insertA acc k v) = acc ++ (k, v) :: rest
  rw [insertA_of_not_mem acc k v hk, hstep]
  apply ih
  have hre : (acc ++ [(k, v)]) ++ rest = acc ++ (k, v) :: rest := by simp
  rw [hre, hmap]
  exact h

theorem collectMap_eq_self (m : List (α × α)) (h : (keysOf m).Nodup) :
collectMap m = m := by
unfold collectMap
have := foldl_insertA_of_nodup m [] (by simpa using h)
simpa using this

theorem parsePairs_encode (toStr : α → String) (fromStr : String → Except Nat α)
(hrt : ∀ a, fromStr (toStr a) = .ok a) (m : List (α × α)) :
parsePairs fromStr (encodeOwners toStr m) = .ok m := by
induction m with
| nil => simp [encodeOwners, parsePairs]
| cons p rest ih =>
  obtain ⟨a, b⟩ := p
  have ih2 : parsePairs fromStr (List.map (fun p => (toStr p.1, toStr p.2)) rest) = .ok rest := by
    simpa [encodeOwners] using ih
  simp only [encodeOwners, List.map_cons, parsePairs, hrt]
  rw [ih2]

/-- C5: encoding a non-empty owner map with unique keys to the persisted list
of 2-element tuples of address strings and decoding it back (address parsing
plus map collection) reproduces exactly the same owner map, hence the same set
of (token wallet, owner) pairs. -/
theorem owners_persistence_round_trip (toStr : α → String)
(fromStr : String → Except Nat α) (m : List (α × α))
(hrt : ∀ a, fromStr (toStr a) = .ok a) (hnd : (keysOf m).Nodup) (hne : m ≠ []) :
decodeOwners fromStr (encodeOwners toStr m) = .ok m := by
unfold decodeOwners
rw [parsePairs_encode toStr fromStr hrt m]
show Except.ok (collectMap m) = Except.ok m
rw [collectMap_eq_self m hnd]

/-- Witness for C5: a concrete two-entry map over `Bool` addresses survives the
round trip. -/
theorem owners_persistence_round_trip_witness :
decodeOwners fromStrB (encodeOwners toStrB [(false, true), (true, false)])
  = .ok [(false, true), (true, false)] :=
owners_persistence_round_trip toStrB fromStrB [(false, true), (true, false)]
  (by intro a; cases a <;> rfl) (by decide) (by decide)

/-- C6: `load` yields an empty cache when the persisted record is absent, fails
hard when the JSON layer rejects present data and when an address string does
not parse, and `load_unchecked` yields an empty cache whenever `load` fails. -/
theorem load_error_handling (pj : String → Except Nat (List (String × String)))
(fromStr : String → Except Nat α) (s : String) (g : Except Nat (Option String)) :
((load (.ok none) pj fromStr : Except LoadError (OwnersCache α)) = .ok ⟨[], []⟩)
∧ (∀ e, pj s = .error e → (load (.ok (some s)) pj fromStr : Except LoadError (OwnersCache α)) = .error (.jsonErr e))
∧ (∀ items e, pj s = .ok items → parsePairs fromStr items = .error e →
  (load (.ok (some s)) pj fromStr : Except LoadError (OwnersCache α)) = .error (.addrErr e))
∧ (∀ e, load g pj fromStr = .error e → loadUnchecked g pj fromStr = ⟨[], []⟩) := by
refine ⟨rfl, fun e he => ?_, fun items e hitems he => ?_, fun e he => ?_⟩
· simp [load, he]
· simp [load, hitems, he]
· simp [loadUnchecked, he]

/-- Witness for C6: the four behaviors evaluated at concrete inputs. -/
theorem load_error_handling_witness :
((load (.ok none) pjC fromStrB : Except LoadError (OwnersCache Bool)) = .ok ⟨[], []⟩)
∧ ((load (.ok (some "bad")) pjC fromStrB : Except LoadError (OwnersCache Bool)) = .error (.jsonErr 3))
∧ ((load (.ok (some "other")) pjC fromStrB : Except LoadError (OwnersCache Bool)) = .error (.addrErr 0))
∧ (loadUnchecked (.error 5) pjC fromStrB = (⟨[], []⟩ : OwnersCache Bool)) :=
⟨(load_error_handling pjC fromStrB "bad" (.error 5)).1,
 (load_error_handling pjC fromStrB "bad" (.error 5)).2.1 3 rfl,
 (load_error_handling pjC fromStrB "other" (.error 5)).2.2.1 [("t", "q")] 0 rfl rfl,
 (load_error_handling pjC fromStrB "other" (.error 5)).2.2.2 (.storageErr 5) rfl⟩

end OwnersCacheModel

namespace OwnersCacheModel

variable {α : Type} [DecidableEq α]

theorem mem_dedup (l : List α) (a : α) : a ∈ dedup l ↔ a ∈ l := by
induction l with
| nil => simp [dedup]
| cons b rest ih =>
  by_cases hb : b ∈ rest
  · rw [show dedup (b :: rest) = dedup rest from by simp [dedup, hb]]
    rw [ih, List.mem_cons]
    exact ⟨Or.inr, fun h => h.elim (fun hc => hc ▸ hb) id⟩
  · rw [show dedup (b :: rest) = b :: dedup rest from by simp [dedup, hb]]
    rw [List.mem_cons, ih, List.mem_cons]

theorem nodup_dedup (l : List α) : (dedup l).Nodup := by
induction l with
| nil => simp [dedup]
| cons b rest ih =>
  by_cases hb : b ∈ rest
  · simpa [dedup, hb] using ih
  · rw [show dedup (b :: rest) = b :: dedup rest from by simp [dedup, hb]]
    exact List.nodup_cons.mpr ⟨fun hc => hb ((mem_dedup rest b).mp hc), ih⟩

theorem resolveOne_result (env : TransportEnv α) (owners : List (α × α)) (w : α) :
(resolveOne env owners w).2.2 =
  match lookupA owners w with
  | some o => some (w, o)
  | none => Option.map (fun o => (w, o)) (stepResolve env w) := by
unfold resolveOne stepResolve
cases lookupA owners w with
| some o => rfl
| none =>
  cases hp : env.permitOk w with
  | false => rfl
  | true =>
    cases env.getContractState w with
    | error e => rfl
    | ok cst =>
      cases cst with
      | NotExists => rfl
      | Exists c =>
        dsimp only
        cases env.getVersion c with
        | error e => rfl
        | ok ver =>
          dsimp only
          cases env.getDetails c ver with
          | error e => rfl
          | ok d => rfl

theorem resolveOne_lookup_ne (env : TransportEnv α) (owners : List (α × α)) (w w' : α)
(h : w' ≠ w) : lookupA (resolveOne env owners w).1 w' = lookupA owners w' := by
unfold resolveOne
cases lookupA owners w with
| some o => rfl
| none =>
  cases hp : env.permitOk w with
  | false => rfl
  | true =>
    cases env.getContractState w with
    | error e => rfl
    | ok cst =>
      cases cst with
      | NotExists => rfl
      | Exists c =>
        dsimp only
        cases env.getVersion c with
        | error e => rfl
        | ok ver =>
          dsimp only
          cases env.getDetails c ver with
          | error e => rfl
          | ok d => exact lookupA_insertA_ne owners w w' d.owner_address h

theorem resolveLoop_spec (env : TransportEnv α) (l : List α) :
∀ owners : List (α × α), l.Nodup →
(∀ p ∈ (resolveLoop env owners l).2.2, p.1 ∈ l)
∧ (keysOf (resolveLoop env owners l).2.2).Nodup
∧ (∀ w o, w ∈ l → lookupA owners w = some o → (w, o) ∈ (resolveLoop env owners l).2.2)
∧ (∀ w, w ∈ l → lookupA owners w = none → stepResolve env w = none →
    w ∉ keysOf (resolveLoop env owners l).2.2) := by
induction l with
| nil =>
  intro owners _
  refine ⟨by simp [resolveLoop], by simp [resolveLoop, keysOf], by simp, by simp [resolveLoop, keysOf]⟩
| cons w0 rest ih =>
  intro owners hnd
  rcases List.nodup_cons.mp hnd with ⟨hw0, hrest⟩
  obtain ⟨hsub, hnodup, hcached, hfail⟩ := ih (resolveOne env owners w0).1 hrest
  have hres : (resolveLoop env owners (w0 :: rest)).2.2 =
    (match (resolveOne env owners w0).2.2 with | some p => [p] | none => []) ++
    (resolveLoop env (resolveOne env owners w0).1 rest).2.2 := rfl
  have hhead : (resolveOne env owners w0).2.2 = none ∨
    ∃ o, (resolveOne env owners w0).2.2 = some (w0, o) := by
    rw [resolveOne_result]
    cases lookupA owners w0 with
    | some o => exact Or.inr ⟨o, rfl⟩
    | none =>
      cases stepResolve env w0 with
      | none => exact Or.inl rfl
      | some o => exact Or.inr ⟨o, rfl⟩
  have hheadkeys : ∀ a, a ∈ keysOf
      (match (resolveOne env owners w0).2.2 with | some p => [p] | none => []) → a = w0 := by
    intro a ha
    rcases hhead with hnone | ⟨o, hsome⟩
    · rw [hnone] at ha
      simp [keysOf] at ha
    · rw [hsome] at ha
      simpa [keysOf] using ha
  have hnextkeys : ∀ a, a ∈ keysOf (resolveLoop env (resolveOne env owners w0).1 rest).2.2 →
      a ∈ rest := by
    intro a ha
    rcases List.mem_map.mp ha with ⟨p, hp, hpe⟩
    exact hpe ▸ hsub p hp
  refine ⟨?_, ?_, ?_, ?_⟩
  · intro p hp
    rw [hres] at hp
    rcases List.mem_append.mp hp with hp1 | hp2
    · have : p.1 = w0 := hheadkeys p.1 (List.mem_map.mpr ⟨p, hp1, rfl⟩)
      rw [this]
      exact List.mem_cons_self w0 rest
    · exact List.mem_cons_of_mem w0 (hsub p hp2)
  · rw [hres, keysOf, List.map_append]
    apply List.Nodup.append
    · rcases hhead with hnone | ⟨o, hsome⟩
      · rw [hnone]
        simp
      · rw [hsome]
        simp
    · exact hnodup
    · intro a ha1 ha2
      have h1 : a = w0 := hheadkeys a ha1
      have h2 : a ∈ rest := hnextkeys a ha2
      exact hw0 (h1 ▸ h2)
  · intro w o hw hlook
    rw [hres]
    rcases List.mem_cons.mp hw with heq | hwrest
    · subst heq
      have hone : (resolveOne env owners w).2.2 = some (w, o) := by
        rw [resolveOne_result, hlook]
      rw [hone]
      exact List.mem_append_left _ (by simp)
    · have hne : w ≠ w0 := fun hc => hw0 (hc ▸ hwrest)
      have hlk : lookupA (resolveOne env owners w0).1 w = some o := by
        rw [resolveOne_lookup_ne env owners w0 w hne, hlook]
      exact List.mem_append_right _ (hcached w o hwrest hlk)
  · intro w hw hlook hstep hc
    rw [hres, keysOf, List.map_append] at hc
    rcases List.mem_append.mp hc with hc1 | hc2
    · rcases List.mem_cons.mp hw with heq | hwrest
      · subst heq
        have hone : (resolveOne env owners w).2.2 = none := by
          rw [resolveOne_result, hlook, hstep]
          rfl
        rw [hone] at hc1
        simp at hc1
      · have h1 : w = w0 := hheadkeys w hc1
        exact hw0 (h1 ▸ hwrest)
    · rcases List.mem_cons.mp hw with heq | hwrest
      · subst heq
        exact hw0 (hnextkeys w hc2)
      · have hne : w ≠ w0 := fun hc' => hw0 (hc' ▸ hwrest)
        have hlk : lookupA (resolveOne env owners w0).1 w = none := by
          rw [resolveOne_lookup_ne env owners w0 w hne, hlook]
        exact hfail w hwrest hlk hstep hc2

/-- C7: `resolve_owners` is total (it returns a map, never an error); the keys
of its result are drawn from the input with each distinct token wallet
appearing at most once; every input wallet already cached is included with its
cached owner; and every uncached wallet whose permit acquisition, contract
fetch, version detection or detail extraction fails is silently omitted. -/
theorem resolve_owners_partial_and_dedup (env : TransportEnv α) (self : OwnersCache α)
(ws : List α) :
(∀ p ∈ (resolveOwners env self ws).2.2, p.1 ∈ ws)
∧ (keysOf (resolveOwners env self ws).2.2).Nodup
∧ (∀ w o, w ∈ ws → lookupA self.owners w = some o → (w, o) ∈ (resolveOwners env self ws).2.2)
∧ (∀ w, w ∈ ws → lookupA self.owners w = none → stepResolve env w = none →
    w ∉ keysOf (resolveOwners env self ws).2.2) := by
have hmain := resolveLoop_spec env (dedup ws) self.owners (nodup_dedup ws)
have hproj : (resolveOwners env self ws).2.2 = (resolveLoop env self.owners (dedup ws)).2.2 := rfl
obtain ⟨hsub, hnodup, hcached, hfail⟩ := hmain
refine ⟨?_, ?_, ?_, ?_⟩
· intro p hp
  exact (mem_dedup ws p.1).mp (hsub p (hproj ▸ hp))
· rw [hproj]
  exact hnodup
· intro w o hw hlook
  rw [hproj]
  exact hcached w o ((mem_dedup ws w).mpr hw) hlook
· intro w hw hlook hstep
  rw [hproj]
  exact hfail w ((mem_dedup ws w).mpr hw) hlook hstep

/-- Witness for C7: a batch containing a duplicate, a cached wallet and a
wallet whose fetch fails, evaluated under a concrete transport. -/
theorem resolve_owners_partial_and_dedup_witness :
((2, 4) ∈ (resolveOwners envN2 ⟨[(2, 4)], []⟩ [0, 2, 0, 3]).2.2)
∧ (keysOf (resolveOwners envN2 ⟨[(2, 4)], []⟩ [0, 2, 0, 3]).2.2).Nodup
∧ (3 ∉ keysOf (resolveOwners envN2 ⟨[(2, 4)], []⟩ [0, 2, 0, 3]).2.2) := by
have h := resolve_owners_partial_and_dedup envN2 ⟨[(2, 4)], []⟩ [0, 2, 0, 3]
exact ⟨h.2.2.1 2 4 (by decide) (by decide), h.2.1,
  h.2.2.2 3 (by decide) (by decide) (by decide)⟩

end OwnersCacheModel

namespace OwnersCacheModel

variable {α : Type} [DecidableEq α]

@[simp] theorem nwwh_nil (l : LockId) (h : Bool) :
netWhileWriteHeld l ([] : List (Ev α)) h = false := rfl

@[simp] theorem nwwh_readLock (l l' : LockId) (tr : List (Ev α)) (h : Bool) :
netWhileWriteHeld l (.readLock l' :: tr) h = netWhileWriteHeld l tr h := rfl

@[simp] theorem nwwh_readUnlock (l l' : LockId) (tr : List (Ev α)) (h : Bool) :
netWhileWriteHeld l (.readUnlock l' :: tr) h = netWhileWriteHeld l tr h := rfl

@[simp] theorem nwwh_writeLock (l l' : LockId) (tr : List (Ev α)) (h : Bool) :
netWhileWriteHeld l (.writeLock l' :: tr) h
  = netWhileWriteHeld l tr (if l' = l then true else h) := rfl

@[simp] theorem nwwh_writeUnlock (l l' : LockId) (tr : List (Ev α)) (h : Bool) :
netWhileWriteHeld l (.writeUnlock l' :: tr) h
  = netWhileWriteHeld l tr (if l' = l then false else h) := rfl

@[simp] theorem nwwh_permitAcquire (l : LockId) (tr : List (Ev α)) (h : Bool) :
netWhileWriteHeld l (.permitAcquire :: tr) h = netWhileWriteHeld l tr h := rfl

@[simp] theorem nwwh_netFetch (l : LockId) (a : α) (tr : List (Ev α)) (h : Bool) :
netWhileWriteHeld l (.netFetch a :: tr) h = (h || netWhileWriteHeld l tr h) := rfl

@[simp] theorem nwwh_insertOwner (l : LockId) (k v : α) (tr : List (Ev α)) (h : Bool) :
netWhileWriteHeld l (.insertOwner k v :: tr) h = netWhileWriteHeld l tr h := rfl

@[simp] theorem nwwh_insertTokenState (l : LockId) (a : α) (tr : List (Ev α)) (h : Bool) :
netWhileWriteHeld l (.insertTokenState a :: tr) h = netWhileWriteHeld l tr h := rfl

@[simp] theorem nwwh_storageSet (l : LockId) (key : String) (d : List (String × String))
(tr : List (Ev α)) (h : Bool) :
netWhileWriteHeld l (.storageSet key d :: tr) h = netWhileWriteHeld l tr h := rfl

@[simp] theorem ha_nil (l : LockId) (h : Bool) : heldAfter l ([] : List (Ev α)) h = h := rfl

@[simp] theorem ha_readLock (l l' : LockId) (tr : List (Ev α)) (h : Bool) :
heldAfter l (.readLock l' :: tr) h = heldAfter l tr h := rfl

@[simp] theorem ha_readUnlock (l l' : LockId) (tr : List (Ev α)) (h : Bool) :
heldAfter l (.readUnlock l' :: tr) h = heldAfter l tr h := rfl

@[simp] theorem ha_writeLock (l l' : LockId) (tr : List (Ev α)) (h : Bool) :
heldAfter l (.writeLock l' :: tr) h = heldAfter l tr (if l' = l then true else h) := rfl

@[simp] theorem ha_writeUnlock (l l' : LockId) (tr : List (Ev α)) (h : Bool) :
heldAfter l (.writeUnlock l' :: tr) h = heldAfter l tr (if l' = l then false else h) := rfl

@[simp] theorem ha_permitAcquire (l : LockId) (tr : List (Ev α)) (h : Bool) :
heldAfter l (.permitAcquire :: tr) h = heldAfter l tr h := rfl

@[simp] theorem ha_netFetch (l : LockId) (a : α) (tr : List (Ev α)) (h : Bool) :
heldAfter l (.netFetch a :: tr) h = heldAfter l tr h := rfl

@[simp] theorem ha_insertOwner (l : LockId) (k v : α) (tr : List (Ev α)) (h : Bool) :
heldAfter l (.insertOwner k v :: tr) h = heldAfter l tr h := rfl

@[simp] theorem ha_insertTokenState (l : LockId) (a : α) (tr : List (Ev α)) (h : Bool) :
heldAfter l (.insertTokenState a :: tr) h = heldAfter l tr h := rfl

@[simp] theorem ha_storageSet (l : LockId) (key : String) (d : List (String × String))
(tr : List (Ev α)) (h : Bool) :
heldAfter l (.storageSet key d :: tr) h = heldAfter l tr h := rfl

theorem netWhileWriteHeld_append (l : LockId) (t1 t2 : List (Ev α)) (h : Bool) :
netWhileWriteHeld l (t1 ++ t2) h
  = (netWhileWriteHeld l t1 h || netWhileWriteHeld l t2 (heldAfter l t1 h)) := by
induction t1 generalizing h with
| nil => simp
| cons e rest ih => cases e <;> simp [ih, Bool.or_assoc]

theorem heldAfter_append (l : LockId) (t1 t2 : List (Ev α)) (h : Bool) :
heldAfter l (t1 ++ t2) h = heldAfter l t2 (heldAfter l t1 h) := by
induction t1 generalizing h with
| nil => simp
| cons e rest ih => cases e <;> simp [ih]

theorem nwwh_insert_events (l : LockId) (news : List (α × α)) (h : Bool) :
netWhileWriteHeld l (news.map (fun p => Ev.insertOwner p.1 p.2)) h = false := by
induction news with
| nil => simp
| cons p rest ih => simp [ih]

theorem ha_insert_events (l : LockId) (news : List (α × α)) (h : Bool) :
heldAfter l (news.map (fun p => Ev.insertOwner p.1 p.2)) h = h := by
induction news with
| nil => simp
| cons p rest ih => simp [ih]

theorem resolveOne_trace_flags (env : TransportEnv α) (owners : List (α × α)) (w : α) :
((resolveOne env owners w).2.1.all notStorageSet = true)
∧ (netWhileWriteHeld .owners (resolveOne env owners w).2.1 false = false)
∧ (heldAfter .owners (resolveOne env owners w).2.1 false = false)
∧ (netWhileWriteHeld .tokenStates (resolveOne env owners w).2.1 false = false)
∧ (heldAfter .tokenStates (resolveOne env owners w).2.1 false = false) := by
unfold resolveOne
cases lookupA owners w with
| some o => exact ⟨rfl, rfl, rfl, rfl, rfl⟩
| none =>
  cases hp : env.permitOk w with
  | false => exact ⟨rfl, rfl, rfl, rfl, rfl⟩
  | true =>
    cases env.getContractState w with
    | error e => exact ⟨rfl, rfl, rfl, rfl, rfl⟩
    | ok cst =>
      cases cst with
      | NotExists => exact ⟨rfl, rfl, rfl, rfl, rfl⟩
      | Exists c =>
        dsimp only
        cases env.getVersion c with
        | error e => exact ⟨rfl, rfl, rfl, rfl, rfl⟩
        | ok ver =>
          dsimp only
          cases env.getDetails c ver with
          | error e => exact ⟨rfl, rfl, rfl, rfl, rfl⟩
          | ok d => exact ⟨rfl, rfl, rfl, rfl, rfl⟩

theorem resolveLoop_traces (env : TransportEnv α) (l : List α) :
∀ owners : List (α × α),
((resolveLoop env owners l).2.1.all notStorageSet = true)
∧ (netWhileWriteHeld .owners (resolveLoop env owners l).2.1 false = false)
∧ (netWhileWriteHeld .tokenStates (resolveLoop env owners l).2.1 false = false) := by
induction l with
| nil => intro owners; exact ⟨rfl, rfl, rfl⟩
| cons w rest ih =>
  intro owners
  obtain ⟨hall, hno, hho, hnt, hht⟩ := resolveOne_trace_flags env owners w
  obtain ⟨ihall, ihno, ihnt⟩ := ih (resolveOne env owners w).1
  have htr : (resolveLoop env owners (w :: rest)).2.1
      = (resolveOne env owners w).2.1 ++ (resolveLoop env (resolveOne env owners w).1 rest).2.1 :=
    rfl
  refine ⟨?_, ?_, ?_⟩
  · rw [htr, List.all_append, hall, ihall]
    rfl
  · rw [htr, netWhileWriteHeld_append, hno, hho, ihno]
    rfl
  · rw [htr, netWhileWriteHeld_append, hnt, hht, ihnt]
    rfl

theorem checkTokenWallet_traces (env : TransportEnv α) (owners : List (α × α))
(sv : ExistingContract × TokenWalletVersion) (ow : α) :
((checkTokenWallet env owners sv ow).2.1.all notStorageSet = true)
∧ (netWhileWriteHeld .owners (checkTokenWallet env owners sv ow).2.1 false = false)
∧ (heldAfter .owners (checkTokenWallet env owners sv ow).2.1 false = false) := by
unfold checkTokenWallet
cases env.getWalletAddress sv.1 sv.2 ow with
| error e => exact ⟨rfl, rfl, rfl⟩
| ok tw =>
  dsimp only
  cases env.getContractState tw with
  | error e => exact ⟨rfl, rfl, rfl⟩
  | ok cst =>
    cases cst with
    | NotExists => exact ⟨rfl, rfl, rfl⟩
    | Exists c => exact ⟨rfl, rfl, rfl⟩

end OwnersCacheModel

namespace OwnersCacheModel

variable {α : Type} [DecidableEq α]

/-- C1 is false as stated: a fully successful `resolve_owners` run and a
successful `check_recipient_wallet` run both insert into the owner map (the
final owner map is non-empty although it started empty) while their event
traces contain no storage write at all. -/
theorem owners_mutation_without_flush_cex :
((resolveOwners envN ⟨[], []⟩ [0]).1.owners ≠ []
  ∧ (resolveOwners envN ⟨[], []⟩ [0]).2.1.all notStorageSet = true)
∧ ((checkRecipientWallet envN ⟨[], []⟩ 7 9).1.owners ≠ []
  ∧ (checkRecipientWallet envN ⟨[], []⟩ 7 9).2.1.all notStorageSet = true) := by
decide

/-- C1 (amended): `add_entry` and `add_owners_list` emit a storage write of the
encoded updated owner map before returning, but the per-item recording inside
`resolve_owners` and the recording side effect of `check_recipient_wallet`
perform no persistence flush at all: their traces contain no storage write. -/
theorem owners_flush_semantics (env : TransportEnv α) (self : OwnersCache α)
(k v root ow : α) (news : List (α × α)) (ws : List α) :
(Ev.storageSet STORAGE_OWNERS_CACHE (encodeOwners env.toStr (addEntry env self k v).1.owners)
  ∈ (addEntry env self k v).2)
∧ (Ev.storageSet STORAGE_OWNERS_CACHE (encodeOwners env.toStr (addOwnersList env self news).1.owners)
  ∈ (addOwnersList env self news).2)
∧ ((resolveOwners env self ws).2.1.all notStorageSet = true)
∧ ((checkRecipientWallet env self root ow).2.1.all notStorageSet = true) := by
refine ⟨?_, ?_, ?_, ?_⟩
· simp [addEntry, saveEv]
· simp [addOwnersList, saveEv]
· exact (resolveLoop_traces env (dedup ws) self.owners).1
· unfold checkRecipientWallet
  cases lookupA self.tokenStates root with
  | some sv =>
    dsimp only
    have h := (checkTokenWallet_traces env self.owners sv ow).1
    simp [List.all_append, h, notStorageSet]
  | none =>
    cases env.getContractState root with
    | error e => rfl
    | ok cst =>
      cases cst with
      | NotExists => rfl
      | Exists st =>
        dsimp only
        cases env.guessVersion st with
        | error e => rfl
        | ok ver =>
          dsimp only
          have h := (checkTokenWallet_traces env self.owners (st, ver) ow).1
          simp [List.all_append, h, notStorageSet]

/-- C9 is false as stated: in a concrete `check_recipient_wallet` run the
token-contract-states write lock is held across a network fetch. -/
theorem token_states_lock_across_network_cex :
netWhileWriteHeld .tokenStates (checkRecipientWallet envN (⟨[], []⟩ : OwnersCache Nat) 7 9).2.1
  false = true := by
decide

/-- C9 (amended): the owner-map write lock is held only for the in-memory
insertion (and the synchronous save encode) and never across a network fetch,
in every operation; the token-contract-states write lock taken by
`check_recipient_wallet`, however, is held across every network fetch that
operation performs. -/
theorem write_lock_scopes (env : TransportEnv α) (self : OwnersCache α)
(k v root ow : α) (news : List (α × α)) (ws : List α) :
(netWhileWriteHeld .owners (addEntry env self k v).2 false = false)
∧ (netWhileWriteHeld .owners (addOwnersList env self news).2 false = false)
∧ (netWhileWriteHeld .owners (resolveOwners env self ws).2.1 false = false)
∧ (netWhileWriteHeld .owners (checkRecipientWallet env self root ow).2.1 false = false)
∧ ((checkRecipientWallet env self root ow).2.1.any isNetFetch = true →
    netWhileWriteHeld .tokenStates (checkRecipientWallet env self root ow).2.1 false = true) := by
refine ⟨?_, ?_, ?_, ?_, ?_⟩
· rfl
· simp [addOwnersList, saveEv, netWhileWriteHeld_append, heldAfter_append, nwwh_insert_events,
    ha_insert_events]
· exact (resolveLoop_traces env (dedup ws) self.owners).2.1
· unfold checkRecipientWallet
  cases lookupA self.tokenStates root with
  | some sv =>
    dsimp only
    obtain ⟨-, hno, hho⟩ := checkTokenWallet_traces env self.owners sv ow
    simp [netWhileWriteHeld_append, heldAfter_append, hno, hho]
  | none =>
    cases env.getContractState root with
    | error e => rfl
    | ok cst =>
      cases cst with
      | NotExists => rfl
      | Exists st =>
        dsimp only
        cases env.guessVersion st with
        | error e => rfl
        | ok ver =>
          dsimp only
          obtain ⟨-, hno, hho⟩ := checkTokenWallet_traces env self.owners (st, ver) ow
          simp [netWhileWriteHeld_append, heldAfter_append, hno, hho]
· intro hany
  unfold checkRecipientWallet at hany ⊢
  cases hlk : lookupA self.tokenStates root with
  | some sv =>
    rw [hlk] at hany
    dsimp only at hany ⊢
    unfold checkTokenWallet at hany ⊢
    cases hgw : env.getWalletAddress sv.1 sv.2 ow with
    | error e =>
      exfalso
      rw [hgw] at hany
      simp [isNetFetch] at hany
    | ok tw =>
      dsimp only
      cases env.getContractState tw with
      | error e => rfl
      | ok cst =>
        cases cst with
        | NotExists => rfl
        | Exists c => rfl
  | none =>
    cases env.getContractState root with
    | error e => rfl
    | ok cst =>
      cases cst with
      | NotExists => rfl
      | Exists st =>
        dsimp only
        cases env.guessVersion st with
        | error e => rfl
        | ok ver => rfl

/-- Witness for the amended C9 at a concrete transport and cache. -/
theorem write_lock_scopes_witness :
(netWhileWriteHeld .owners (addEntry envN (⟨[], []⟩ : OwnersCache Nat) 1 2).2 false = false)
∧ (netWhileWriteHeld .tokenStates (checkRecipientWallet envN (⟨[], []⟩ : OwnersCache Nat) 7 9).2.1
    false = true) := by
have h := write_lock_scopes envN (⟨[], []⟩ : OwnersCache Nat) 1 2 7 9 [] []
exact ⟨h.1, h.2.2.2.2 (by decide)⟩

end OwnersCacheModel
